import Mathlib

/-!
Verification of the AI-Investor-Daily newsletter generator.

The JavaScript sources are shallowly embedded below.  JavaScript strings are
modelled by `String` (operating on the underlying `List Char`), JavaScript
numbers by `ℚ` (an idealisation of IEEE doubles; every concrete value used in
the theorems is exactly representable), `null`/`undefined` by `Option`, and
external collaborators (the RSS parser, the HTTP fetches, the `compromise`
NLP matcher, the JS regex engine, and the clock) by explicit
environment records, so that every function of the repository itself is a
total computable Lean function.
-/

/-- Model of JavaScript `String.prototype.toLowerCase` (ASCII case mapping,
applied characterwise to the code points of the string). -/
def jsToLower (s : String) : String := ⟨s.data.map Char.toLower⟩

/-- Model of JavaScript `String.prototype.toUpperCase` (ASCII case mapping,
applied characterwise to the code points of the string). -/
def jsToUpper (s : String) : String := ⟨s.data.map Char.toUpper⟩

/-- Model of JavaScript `String.prototype.slice(0, n)`. -/
def jsSlice (s : String) (n : ℕ) : String := ⟨s.data.take n⟩

/-- Does the character list `l` start with the character list `p`? -/
def beginsWith : List Char → List Char → Bool
  | [], _ => true
  | _ :: _, [] => false
  | p :: ps, c :: cs => p == c && beginsWith ps cs

/-- Does the character list `l` contain the character list `pat` as a
contiguous run?  Scans left to right, as `String.prototype.includes` does. -/
def containsSeq (pat : List Char) : List Char → Bool
  | [] => pat.isEmpty
  | c :: cs => beginsWith pat (c :: cs) || containsSeq pat cs

/-- Model of JavaScript `s.includes(sub)` (substring containment). -/
def strIncludes (s sub : String) : Bool := containsSeq sub.data s.data

/-- The proposition that `sub` occurs contiguously inside `s`. -/
def ContainsSub (s sub : String) : Prop :=
  ∃ pre post, s.data = pre ++ sub.data ++ post

theorem beginsWith_iff (p l : List Char) :
    beginsWith p l = true ↔ ∃ post, l = p ++ post := by
  induction p generalizing l with
  | nil => simp [beginsWith]
  | cons x xs ih =>
    cases l with
    | nil => simp [beginsWith]
    | cons c cs =>
      simp only [beginsWith, Bool.and_eq_true, beq_iff_eq, ih, List.cons_append,
        List.cons.injEq]
      constructor
      · rintro ⟨rfl, post, rfl⟩; exact ⟨post, rfl, rfl⟩
      · rintro ⟨post, rfl, rfl⟩; exact ⟨rfl, post, rfl⟩

theorem containsSeq_iff (pat l : List Char) :
    containsSeq pat l = true ↔ ∃ pre post, l = pre ++ pat ++ post := by
  induction l with
  | nil =>
    cases pat with
    | nil => simp [containsSeq]
    | cons x xs =>
      simp only [containsSeq, List.isEmpty_cons, Bool.false_eq_true, false_iff]
      rintro ⟨pre, post, h⟩
      exact absurd h.symm (by simp)
  | cons c cs ih =>
    simp only [containsSeq, Bool.or_eq_true, beginsWith_iff, ih]
    constructor
    · rintro (⟨post, h⟩ | ⟨pre, post, rfl⟩)
      · exact ⟨[], post, by simpa using h⟩
      · exact ⟨c :: pre, post, by simp⟩
    · rintro ⟨pre, post, h⟩
      cases pre with
      | nil => exact Or.inl ⟨post, by simpa using h⟩
      | cons x xs =>
        simp only [List.cons_append, List.cons.injEq] at h
        exact Or.inr ⟨xs, post, h.2⟩

theorem strIncludes_iff (s sub : String) :
    strIncludes s sub = true ↔ ContainsSub s sub :=
  containsSeq_iff sub.data s.data

/-! ### Keyword configuration (source: `part_000`, lines 20–27) -/

/-- Inclusion keywords (`KEYWORDS` in the source). -/
def KEYWORDS : List String :=
  ["AI", "artificial intelligence", "machine learning", "LLM",
   "large language model", "GPT", "Claude", "Copilot", "chatbot", "neural",
   "deep learning"]

/-- Exclusion keywords (`IGNORE_KEYWORDS` in the source). -/
def IGNORE_KEYWORDS : List String :=
  ["podcast", "jobs", "careers", "opinion", "editorial", "review",
   "security vulnerability", "hacker", "malware"]

/-- Per-feed article cap (`MAX_ARTICLES_PER_FEED` in the source). -/
def MAX_ARTICLES_PER_FEED : ℕ := 10

/-- Lower bound of the small-cap market-cap range (`SMALL_CAP_RANGE.min`). -/
def SMALL_CAP_MIN : ℚ := 50000000

/-- Upper bound of the small-cap market-cap range (`SMALL_CAP_RANGE.max`). -/
def SMALL_CAP_MAX : ℚ := 2000000000

/-- Number of small-cap picks sought (`DESIRED_SMALL_CAP_COUNT`). -/
def DESIRED_SMALL_CAP_COUNT : ℕ := 3

/-- Embedding of `matchesKeywords(text)` (source: `part_000`, lines 31–40).
The `!text` guard is the empty-string test (the only falsy string); the two
`some` scans check lowercased-substring containment of each keyword. -/
def matchesKeywords (text : String) : Bool :=
  if text == "" then false
  else
    let t := jsToLower text
    let hasKeyword := KEYWORDS.any fun k => strIncludes t (jsToLower k)
    if !hasKeyword then false
    else
      let hasIgnore := IGNORE_KEYWORDS.any fun k => strIncludes t (jsToLower k)
      !hasIgnore

/-- C7: for every text input `T`, `matchesKeywords T` returns true iff `T`
contains at least one inclusion keyword as a case-insensitive substring and
contains none of the exclusion keywords (case-insensitively). -/
theorem C7_matchesKeywords_iff (T : String) :
    matchesKeywords T = true ↔
      (∃ k ∈ KEYWORDS, ContainsSub (jsToLower T) (jsToLower k)) ∧
        ∀ k ∈ IGNORE_KEYWORDS, ¬ ContainsSub (jsToLower T) (jsToLower k) := by
  unfold matchesKeywords
  by_cases hT : T = ""
  · subst hT
    simp only [beq_self_eq_true, if_true, Bool.false_eq_true, false_iff]
    rintro ⟨⟨k, hk, pre, post, h⟩, -⟩
    have hne : (jsToLower k).data ≠ [] := by fin_cases hk <;> decide
    have h0 : (jsToLower "").data = [] := rfl
    rw [h0] at h
    exact hne (List.append_eq_nil.mp (List.append_eq_nil.mp h.symm).1).2
  · rw [if_neg (by simpa using hT)]
    cases hK : KEYWORDS.any fun k => strIncludes (jsToLower T) (jsToLower k) with
    | false =>
      simp only [hK, Bool.not_false, if_true, Bool.false_eq_true, false_iff]
      rintro ⟨⟨k, hk, h⟩, -⟩
      rw [← strIncludes_iff] at h
      exact (List.any_eq_false.mp hK k hk) h
    | true =>
      simp only [hK, Bool.not_true, Bool.false_eq_true, if_false,
        Bool.not_eq_true', List.any_eq_false, strIncludes_iff]
      constructor
      · intro h
        rcases List.any_eq_true.mp hK with ⟨k, hk, hks⟩
        exact ⟨⟨k, hk, (strIncludes_iff _ _).mp hks⟩, h⟩
      · rintro ⟨-, h⟩
        exact h

/-! ### Paywall detector (source: `part_000`, lines 74–109) -/

/-- The fixed phrase list `paywallHints` from the source. -/
def paywallHints : List String :=
  ["subscribe", "sign in to continue", "full article is for subscribers",
   "to continue reading", "please subscribe", "log in to view",
   "become a member", "subscription required", "metered paywall"]

/-- The observable part of a fetched article page, as `isLikelyPaywalled`
reads it through cheerio: the joined text of the selected paragraph elements,
and whether any of the known paywall container selectors
(`.paywall, .paywall-module, .subscription-overlay, .meteredContent,
.subscription-required, #paywall`) matches. -/
structure FetchedPage where
  paragraphText : String
  hasPaywallSelector : Bool

/-- Embedding of `isLikelyPaywalled(url)` (source: `part_000`, lines 74–109).
The network fetch and the HTML parse are external, so the function is given
their combined outcome: `none` models any fetch/parse error (the `catch`
branch), `some page` a successfully loaded page.  The scanned text is the
paragraph text truncated to 4000 characters and lowercased, exactly as in
`.slice(0, 4000).toLowerCase()`. -/
def isLikelyPaywalled (page : Option FetchedPage) : Bool :=
  match page with
  | none => true
  | some pg =>
    let text := jsToLower (jsSlice pg.paragraphText 4000)
    if paywallHints.any fun h => strIncludes text h then true
    else if pg.hasPaywallSelector then true
    else if decide (text.length < 200) && strIncludes text "continue reading" then true
    else false

/-- C5: `isLikelyPaywalled` returns true iff the lowercased 4000-character
prefix of the page's extracted paragraph text contains one of the fixed
paywall phrases, or a known paywall container selector is present, or the
extracted text is shorter than 200 characters and contains
"continue reading"; and on any fetch or parse error (`none`) it returns true
(fail-closed) rather than propagating the error. -/
theorem C5_paywall_iff (page : Option FetchedPage) :
    isLikelyPaywalled page = true ↔
      (page = none ∨ ∃ pg, page = some pg ∧
        ((∃ h ∈ paywallHints,
            ContainsSub (jsToLower (jsSlice pg.paragraphText 4000)) h) ∨
         pg.hasPaywallSelector = true ∨
         ((jsToLower (jsSlice pg.paragraphText 4000)).length < 200 ∧
            ContainsSub (jsToLower (jsSlice pg.paragraphText 4000))
              "continue reading"))) := by
  cases page with
  | none => simp [isLikelyPaywalled]
  | some pg =>
    simp only [isLikelyPaywalled, Option.some.injEq, reduceCtorEq, false_or]
    constructor
    · intro h
      refine ⟨pg, rfl, ?_⟩
      by_cases h1 : paywallHints.any fun h => strIncludes
          (jsToLower (jsSlice pg.paragraphText 4000)) h
      · rcases List.any_eq_true.mp h1 with ⟨k, hk, hks⟩
        exact Or.inl ⟨k, hk, (strIncludes_iff _ _).mp hks⟩
      · rw [if_neg h1] at h
        by_cases h2 : pg.hasPaywallSelector
        · exact Or.inr (Or.inl h2)
        · rw [if_neg h2] at h
          by_cases h3 : (decide ((jsToLower (jsSlice pg.paragraphText 4000)).length < 200)
              && strIncludes (jsToLower (jsSlice pg.paragraphText 4000)) "continue reading") = true
          · rw [Bool.and_eq_true] at h3
            exact Or.inr (Or.inr ⟨of_decide_eq_true h3.1, (strIncludes_iff _ _).mp h3.2⟩)
          · rw [if_neg h3] at h
            exact absurd h (by simp)
    · rintro ⟨pg', hpg, hcases⟩
      cases hpg
      by_cases h1 : (paywallHints.any fun h => strIncludes
          (jsToLower (jsSlice pg.paragraphText 4000)) h) = true
      · rw [if_pos h1]
      · rw [if_neg h1]
        rcases hcases with ⟨k, hk, hks⟩ | hsel | ⟨hlen, hcr⟩
        · exact absurd (List.any_eq_true.mpr
            ⟨k, hk, (strIncludes_iff _ _).mpr hks⟩) h1
        · rw [if_pos hsel]
        · by_cases h2 : pg.hasPaywallSelector = true
          · rw [if_pos h2]
          · rw [if_neg h2, if_pos (by
              rw [Bool.and_eq_true]
              exact ⟨decide_eq_true hlen, (strIncludes_iff _ _).mpr hcr⟩)]

/-! ### Ticker extractor (source: `part_000`, lines 178–223) -/

/-- The final stop-symbol filter list of `extractSymbols` (source lines
204–219). -/
def STOP_SYMBOLS : List String :=
  ["AI", "ML", "LLM", "GPT", "COM", "NET", "ORG", "CO", "INC", "LTD",
   "INC.", "LTD.", "AI.", "ML."]

/-- The two external text scanners used by `extractSymbols`: the
`compromise` NLP match
`( #UpperCase | #ProperNoun ){1,2} (Corp | Inc | ... | Labs)?` returning the
matched span texts (Rule 1), and the JS regex scan
`\$?([A-Z]{1,5})\)?\b|\( *([A-Z]{1,5}) *\)` returning the captured groups
(Rule 2).  Both libraries are out of scope, so the scanners are parameters;
`extractSymbols` itself filters their output. -/
structure ScanEnv where
  nounMatches : String → List String
  tickerMatches : String → List String

/-- JS `Set.prototype.add`: append if not already present (insertion order
is preserved, as `Array.from` of a `Set` does). -/
def setAdd (acc : List String) (x : String) : List String :=
  if acc.contains x then acc else acc ++ [x]

/-- One candidate-collection pass of `extractSymbols`: uppercase each scanned
string and add it to the set if its length lies in `[lo, 5]` and its
lowercasing is not one of the `KEYWORDS`.  Rule 1 uses `lo = 1`
(`potential.length >= 1`), Rule 2 uses `lo = 2` (`symbol.length > 1`). -/
def addCandidates (lo : ℕ) : List String → List String → List String
  | [], acc => acc
  | m :: ms, acc =>
    let potential := jsToUpper m
    addCandidates lo ms
      (if lo ≤ potential.length ∧ potential.length ≤ 5 ∧
          ¬ KEYWORDS.contains (jsToLower potential) then setAdd acc potential
       else acc)

/-- Embedding of `extractSymbols(text)` (source: `part_000`, lines 178–223):
run the two scanning rules (via `ScanEnv`), union their filtered candidates
into an insertion-ordered set, then drop stop symbols and single-character
strings. -/
def extractSymbols (env : ScanEnv) (text : String) : List String :=
  if text == "" then []
  else
    let rule1 := addCandidates 1 (env.nounMatches text) []
    let both := addCandidates 2 (env.tickerMatches text) rule1
    both.filter fun s => ¬ STOP_SYMBOLS.contains s ∧ 1 < s.length

/-- ASCII uppercasing is idempotent on characters. -/
theorem toUpper_toUpper (c : Char) : c.toUpper.toUpper = c.toUpper := by
  unfold Char.toUpper
  by_cases h : c.toNat ≥ 97 ∧ c.toNat ≤ 122
  · rw [if_pos h]
    have hv : (c.toNat - 32).isValidChar := Or.inl (by omega)
    have ht : (Char.ofNat (c.toNat - 32)).toNat = c.toNat - 32 := by
      unfold Char.ofNat
      rw [dif_pos hv]
      simp [Char.ofNatAux, Char.toNat, UInt32.toNat, BitVec.toNat_ofNatLt]
    have hn : ¬((Char.ofNat (c.toNat - 32)).toNat ≥ 97 ∧
        (Char.ofNat (c.toNat - 32)).toNat ≤ 122) := by
      rw [ht]; omega
    rw [if_neg hn]
  · rw [if_neg h, if_neg h]

/-- ASCII uppercasing is idempotent on strings. -/
theorem jsToUpper_jsToUpper (s : String) : jsToUpper (jsToUpper s) = jsToUpper s := by
  unfold jsToUpper
  rw [List.map_map]
  exact congrArg String.mk (List.map_congr_left fun c _ => toUpper_toUpper c)

/-- Every string in a set built by `addCandidates` is its own uppercasing and
is at most 5 characters long, provided the starting set already satisfies
this. -/
theorem mem_addCandidates {lo : ℕ} {ms acc : List String}
    (hacc : ∀ s ∈ acc, jsToUpper s = s ∧ s.length ≤ 5) :
    ∀ s ∈ addCandidates lo ms acc, jsToUpper s = s ∧ s.length ≤ 5 := by
  induction ms generalizing acc with
  | nil => exact hacc
  | cons m ms ih =>
    refine ih ?_
    intro s hs
    by_cases hc : lo ≤ (jsToUpper m).length ∧ (jsToUpper m).length ≤ 5 ∧
        ¬ KEYWORDS.contains (jsToLower (jsToUpper m))
    · rw [if_pos hc] at hs
      unfold setAdd at hs
      by_cases hmem : acc.contains (jsToUpper m)
      · rw [if_pos hmem] at hs
        exact hacc s hs
      · rw [if_neg hmem] at hs
        rcases List.mem_append.mp hs with hs | hs
        · exact hacc s hs
        · rcases List.mem_singleton.mp hs with rfl
          exact ⟨jsToUpper_jsToUpper m, hc.2.1⟩
    · rw [if_neg hc] at hs
      exact hacc s hs

/-- C6: every symbol returned by `extractSymbols` — for any input text and
any behaviour of the two external scanners — has length between 2 and 5
characters, equals its own uppercased form, and is not a member of the fixed
stop-symbol set. -/
theorem C6_symbol_invariants (env : ScanEnv) (text : String) (s : String)
    (hs : s ∈ extractSymbols env text) :
    (2 ≤ s.length ∧ s.length ≤ 5) ∧ jsToUpper s = s ∧ s ∉ STOP_SYMBOLS := by
  unfold extractSymbols at hs
  split at hs
  · simp at hs
  · rcases List.mem_filter.mp hs with ⟨hmem, hcond⟩
    rw [decide_eq_true_eq] at hcond
    have hup : ∀ s ∈ addCandidates 1 (env.nounMatches text) [],
        jsToUpper s = s ∧ s.length ≤ 5 :=
      mem_addCandidates fun s hs => absurd hs (List.not_mem_nil s)
    have hboth : ∀ s ∈ addCandidates 2 (env.tickerMatches text)
        (addCandidates 1 (env.nounMatches text) []),
        jsToUpper s = s ∧ s.length ≤ 5 := mem_addCandidates hup
    rcases hboth s hmem with ⟨hupper, hlen5⟩
    refine ⟨⟨hcond.2, hlen5⟩, hupper, fun hstop => ?_⟩
    exact hcond.1 (by simpa using hstop)

/-- A concrete scanner output witnessing `C6_symbol_invariants`: the regex
rule captures "NVDA", which survives all filters. -/
def cexScanEnv : ScanEnv :=
  { nounMatches := fun _ => [], tickerMatches := fun _ => ["NVDA"] }

/-- Witness for C6: on a concrete scan, "NVDA" is returned and satisfies all
three invariants. -/
theorem C6_symbol_invariants_witness :
    "NVDA" ∈ extractSymbols cexScanEnv "NVDA up" ∧
      ((2 ≤ ("NVDA" : String).length ∧ ("NVDA" : String).length ≤ 5) ∧
        jsToUpper "NVDA" = "NVDA" ∧ "NVDA" ∉ STOP_SYMBOLS) :=
  ⟨by decide, C6_symbol_invariants cexScanEnv "NVDA up" "NVDA" (by decide)⟩

/-! ### Number formatting (source: `part_000`, lines 163–176) -/

/-- Left-pad a digit string with zeros to `f` digits. -/
def zeroPad (f : ℕ) (s : String) : String :=
  ⟨List.replicate (f - s.length) '0'⟩ ++ s

/-- Model of JavaScript `x.toFixed(f)`: the integer `n` minimising
`|n / 10^f - x|` (ties to the larger `n`, i.e. `⌊x·10^f + 1/2⌋`), rendered
with exactly `f` digits after the point. -/
def jsToFixed (f : ℕ) (x : ℚ) : String :=
  let n : ℤ := ⌊x * (10 : ℚ) ^ f + 1 / 2⌋
  let m : ℕ := n.natAbs
  (if n < 0 then "-" else "") ++ Nat.repr (m / 10 ^ f) ++
    (if f = 0 then "" else "." ++ zeroPad f (Nat.repr (m % 10 ^ f)))

/-- Embedding of `formatMoney(num)` (source: `part_000`, lines 163–170).
The input `none` models the `null`/`undefined`/`NaN` guard (`ℚ` has no NaN,
so all three collapse into the absent case). -/
def formatMoney (num : Option ℚ) : String :=
  match num with
  | none => "N/A"
  | some n =>
    if (1000000000000 : ℚ) ≤ n then jsToFixed 2 (n / 1000000000000) ++ "T"
    else if (1000000000 : ℚ) ≤ n then jsToFixed 2 (n / 1000000000) ++ "B"
    else if (1000000 : ℚ) ≤ n then jsToFixed 2 (n / 1000000) ++ "M"
    else if (1000 : ℚ) ≤ n then jsToFixed 2 (n / 1000) ++ "K"
    else jsToFixed 2 n

/-- Embedding of `formatPercentChange(percent)` (source: `part_000`,
lines 172–176). -/
def formatPercentChange (percent : Option ℚ) : String :=
  match percent with
  | none => "N/A"
  | some p => (if 0 ≤ p then "+" else "") ++ jsToFixed 1 p ++ "%"

/-- C8: `formatMoney` maps 1 200 000 000 to "1.20B", 999 to "999.00",
2 500 000 000 000 to "2.50T", and null/NaN (`none`) to "N/A". -/
theorem C8_formatMoney_values :
    formatMoney (some 1200000000) = "1.20B" ∧
    formatMoney (some 999) = "999.00" ∧
    formatMoney (some 2500000000000) = "2.50T" ∧
    formatMoney none = "N/A" := by
  have h1 : ((1200000000 : ℚ) / 1000000000 * (10 : ℚ) ^ 2 + 1 / 2) = 241 / 2 := by
    norm_num
  have hf1 : ⌊(241 : ℚ) / 2⌋ = 120 := by
    rw [Int.floor_eq_iff]; norm_num
  have h2 : ((999 : ℚ) * (10 : ℚ) ^ 2 + 1 / 2) = 199801 / 2 := by norm_num
  have hf2 : ⌊(199801 : ℚ) / 2⌋ = 99900 := by
    rw [Int.floor_eq_iff]; norm_num
  have h3 : ((2500000000000 : ℚ) / 1000000000000 * (10 : ℚ) ^ 2 + 1 / 2) = 501 / 2 := by
    norm_num
  have hf3 : ⌊(501 : ℚ) / 2⌋ = 250 := by
    rw [Int.floor_eq_iff]; norm_num
  refine ⟨?_, ?_, ?_, rfl⟩
  · rw [formatMoney, if_neg (by norm_num), if_pos (by norm_num),
      jsToFixed, h1, hf1]
    decide
  · rw [formatMoney, if_neg (by norm_num), if_neg (by norm_num),
      if_neg (by norm_num), if_neg (by norm_num), jsToFixed, h2, hf2]
    decide
  · rw [formatMoney, if_pos (by norm_num), jsToFixed, h3, hf3]
    decide

/-! ### HTML escaping (source: `index.js`, lines 161–165) -/

/-- The per-character replacement table of `escapeHtml`: the four characters
matched by `/[&<>"]/g` map to their entities, every other character maps to
itself. -/
def escChar (c : Char) : String :=
  if c == '&' then "&amp;"
  else if c == '<' then "&lt;"
  else if c == '>' then "&gt;"
  else if c == '"' then "&quot;"
  else ⟨[c]⟩

/-- Left-to-right scan replacing each character, as the global regex
replace does. -/
def escapeHtmlAux : List Char → List Char
  | [] => []
  | c :: cs => (escChar c).data ++ escapeHtmlAux cs

/-- Embedding of `escapeHtml(str)` (source: `index.js`, lines 161–165). -/
def escapeHtml (str : String) : String := ⟨escapeHtmlAux str.data⟩

/-- C10: `escapeHtml` replaces each occurrence of the four special
characters with its HTML entity and leaves every other character unchanged;
consequently the result never contains a raw `<`, `>`, or `"` character. -/
theorem C10_escapeHtml_no_raw (str : String) (c : Char)
    (hc : c ∈ (escapeHtml str).data) : c ≠ '<' ∧ c ≠ '>' ∧ c ≠ '"' := by
  have main : ∀ (l : List Char), c ∈ escapeHtmlAux l →
      c ≠ '<' ∧ c ≠ '>' ∧ c ≠ '"' := by
    intro l hc
    induction l with
    | nil => simp [escapeHtmlAux] at hc
    | cons x xs ih =>
      rw [escapeHtmlAux] at hc
      rcases List.mem_append.mp hc with hx | hx
      · unfold escChar at hx
        by_cases h1 : x == '&'
        · rw [if_pos h1] at hx
          fin_cases hx <;> decide
        · rw [if_neg h1] at hx
          by_cases h2 : x == '<'
          · rw [if_pos h2] at hx
            fin_cases hx <;> decide
          · rw [if_neg h2] at hx
            by_cases h3 : x == '>'
            · rw [if_pos h3] at hx
              fin_cases hx <;> decide
            · rw [if_neg h3] at hx
              by_cases h4 : x == '"'
              · rw [if_pos h4] at hx
                fin_cases hx <;> decide
              · rw [if_neg h4] at hx
                rcases List.mem_singleton.mp hx with rfl
                refine ⟨fun hcc => ?_, fun hcc => ?_, fun hcc => ?_⟩ <;> subst hcc
                · exact h2 (by decide)
                · exact h3 (by decide)
                · exact h4 (by decide)
      · exact ih hx
  exact main str.data hc

/-- Witness for C10: the character `a` survives escaping of `"a<b"` and is
none of the three raw specials. -/
theorem C10_escapeHtml_no_raw_witness :
    'a' ∈ (escapeHtml "a<b").data ∧
      ('a' ≠ '<' ∧ 'a' ≠ '>' ∧ 'a' ≠ '"') :=
  ⟨by decide, C10_escapeHtml_no_raw "a<b" 'a' (by decide)⟩

/-! ### Feed collector (source: `part_000`, lines 42–72) -/

/-- A raw item of a parsed RSS feed, as `rss-parser` delivers it.  Absent
fields are `none`; JavaScript also treats the empty string as falsy, which
the truthiness helpers below take into account. -/
structure RawFeedItem where
  title : Option String
  link : Option String
  guid : Option String
  pubDate : Option String
  contentSnippet : Option String
  content : Option String

/-- A successfully parsed feed (`f` in the source): its `title` and its
`items`. -/
structure ParsedFeed where
  title : Option String
  items : List RawFeedItem

/-- One entry of the `FEEDS` loop: the feed URL together with the outcome of
`parser.parseURL` (`none` models the `catch` branch: fetch/parse failure,
after which the feed is skipped). -/
structure FeedFetch where
  url : String
  result : Option ParsedFeed

/-- JS truthiness of an optional string: `undefined`/`null` and `""` are
falsy. -/
def jsStrTruthy (o : Option String) : Bool :=
  match o with
  | none => false
  | some s => !(s == "")

/-- JS `a || b` on optional strings. -/
def jsOrStr (a b : Option String) : Option String :=
  if jsStrTruthy a then a else b

/-- The ambient behaviour `fetchRSSItems` samples: `now` is the timestamp of
`new Date()` and `parseDate` models `new Date(string)` (`none` is an Invalid
Date, i.e. the string had no parseable date). -/
structure RSSEnv where
  now : ℤ
  parseDate : String → Option ℤ

/-- A collected feed item (the records pushed into `items` in the source).
`pubDate` is the JS `Date`: `some t` a valid timestamp, `none` an Invalid
Date (whose `getTime()` is `NaN`). -/
structure FeedItem where
  title : String
  link : String
  pubDate : Option ℤ
  source : String
  contentSnippet : String

/-- The sort key used by `items.sort((a, b) => (b.pubDate?.getTime() || 0) -
(a.pubDate?.getTime() || 0))`: an Invalid Date has `getTime() = NaN`, and
`NaN || 0` is `0`. -/
def feedItemKey (it : FeedItem) : ℤ :=
  match it.pubDate with
  | none => 0
  | some t => t

/-- The descending-key order the comparator establishes. -/
def feedItemGE (a b : FeedItem) : Prop := feedItemKey b ≤ feedItemKey a

instance : DecidableRel feedItemGE := fun a b =>
  inferInstanceAs (Decidable (_ ≤ _))

instance : IsTotal FeedItem feedItemGE :=
  ⟨fun a b => by unfold feedItemGE; exact le_total (feedItemKey b) (feedItemKey a)⟩

instance : IsTrans FeedItem feedItemGE :=
  ⟨fun a b c h1 h2 => by unfold feedItemGE at *; exact le_trans h2 h1⟩

/-- The items contributed by one feed (source lines 45–67): filter by
keywords on title or snippet (`contentSnippet || content`), cap at
`MAX_ARTICLES_PER_FEED`, and normalise each field; a missing (falsy)
`pubDate` string falls back to `new Date()` (the current time), while a
present one goes through `new Date(it.pubDate)`, which may be Invalid. -/
def collectFeedItems (env : RSSEnv) (f : FeedFetch) : List FeedItem :=
  match f.result with
  | none => []
  | some pf =>
    ((pf.items.filter fun it =>
        matchesKeywords (it.title.getD "") ||
          matchesKeywords ((jsOrStr it.contentSnippet it.content).getD "")).take
      MAX_ARTICLES_PER_FEED).map fun it =>
      { title := it.title.getD ""
        link := (jsOrStr it.link it.guid).getD ""
        pubDate := if jsStrTruthy it.pubDate then env.parseDate (it.pubDate.getD "")
                   else some env.now
        source := (jsOrStr pf.title (some f.url)).getD ""
        contentSnippet := it.contentSnippet.getD "" }

/-- Embedding of `fetchRSSItems()` (source: `part_000`, lines 42–72): each
configured feed contributes its surviving items in order, and the merged
list is sorted by the descending pubDate key (a stable sort, as JS `sort`
is). -/
def fetchRSSItems (env : RSSEnv) (feeds : List FeedFetch) : List FeedItem :=
  List.insertionSort feedItemGE (feeds.foldr (fun f acc => collectFeedItems env f ++ acc) [])

/-- The concrete feed exhibiting the pubDate divergence: item A has a
present but unparseable date string, item B a parseable one, item C none at
all. -/
def cexFeed : FeedFetch :=
  { url := "https://feeds.example/tech"
    result := some
      { title := some "Example Feed"
        items :=
          [{ title := some "chatbot update A", link := some "https://e/a",
             guid := none, pubDate := some "garbage-date",
             contentSnippet := some "", content := none },
           { title := some "chatbot update B", link := some "https://e/b",
             guid := none, pubDate := some "2020-01-01",
             contentSnippet := some "", content := none },
           { title := some "chatbot update C", link := some "https://e/c",
             guid := none, pubDate := none,
             contentSnippet := some "", content := none }] } }

/-- The ambient behaviour for the counterexample run: the clock reads 1000
and only "2020-01-01" parses (to 500). -/
def cexRSSEnv : RSSEnv :=
  { now := 1000
    parseDate := fun s => if s == "2020-01-01" then some 500 else none }

/-- C4 (evidence): the source comments intend "Fallback to now if pubDate is
null or invalid", and the spec says items without a parseable date are
assigned the current time and sort newest; but the code only applies the
fallback when `it.pubDate` is falsy.  Item C (date absent) indeed gets the
current time 1000 and sorts first, but item A (date present yet unparseable)
keeps an Invalid Date, whose sort key `NaN || 0 = 0` sends it to the very
end — oldest, not newest. -/
theorem C4_unparseable_pubdate_bug :
    (fetchRSSItems cexRSSEnv [cexFeed]).map (fun it => (it.title, it.pubDate)) =
      [("chatbot update C", some 1000), ("chatbot update B", some 500),
       ("chatbot update A", none)] := by
  decide

/-! ### Stock ranker (source: `part_000`, lines 225–348) -/

/-- An analyst-rating triple. -/
structure Ratings where
  buy : ℕ
  hold : ℕ
  sell : ℕ

/-- Model of JavaScript `s.startsWith(pat)`. -/
def jsStartsWith (s pat : String) : Bool := beginsWith pat.data s.data

/-- Embedding of the mocked `fetchAnalystRatings(symbol)` (source:
`part_000`, lines 225–238): a pure function of the symbol. -/
def fetchAnalystRatings (symbol : String) : Ratings :=
  if jsStartsWith symbol "AI" || jsStartsWith symbol "ML" ||
      jsStartsWith symbol "GEN" then ⟨4, 1, 0⟩
  else if ["GOOG", "MSFT", "NVDA", "AMZN", "META"].contains symbol then ⟨3, 2, 0⟩
  else if jsStartsWith symbol "CL" || jsStartsWith symbol "OC" then ⟨2, 3, 1⟩
  else ⟨1, 2, 2⟩

/-- The fields of a Yahoo quote object that the pipeline reads.  Absent
(`undefined`) numeric fields are `none`. -/
structure Quote where
  symbol : String
  shortName : String
  regularMarketPrice : Option ℚ
  marketCap : Option ℚ
  regularMarketChange : Option ℚ
  regularMarketChangePercent : Option ℚ

/-- A stock candidate as `main` pushes it (source lines 514–524): the fields
`rankStocks` reads. -/
structure Candidate where
  symbol : String
  title : String
  summary : String
  articleText : String

/-- The external behaviour `rankStocks` samples during one run:
`fetchQuote` is the Yahoo quote endpoint (`none` = unknown symbol or
provider error) and `sentiment` is `analyzeNewsSentiment` on a URL or on
raw article text (itself network-dependent, hence part of the
environment; it returns 0 on failure). -/
structure RankEnv where
  fetchQuote : String → Option Quote
  sentiment : String → ℚ

/-- The `!quote.regularMarketPrice` guard: a missing price and a price of 0
are both falsy. -/
def quoteHasPrice (q : Quote) : Bool :=
  match q.regularMarketPrice with
  | none => false
  | some p => !(p == 0)

/-- `isSmallCap` (source line 297): `quote.marketCap >= min && <= max`; a
missing market cap makes both comparisons false. -/
def isSmallCapOf (q : Quote) : Bool :=
  match q.marketCap with
  | none => false
  | some mc => decide (SMALL_CAP_MIN ≤ mc) && decide (mc ≤ SMALL_CAP_MAX)

/-- `isAiRelated` (source line 298).  Note the source compares the
lowercased title/text against each keyword *without* lowercasing the
keyword. -/
def isAiRelatedOf (c : Candidate) : Bool :=
  KEYWORDS.any fun k =>
    strIncludes (jsToLower c.title) k || strIncludes (jsToLower c.articleText) k

/-- The per-symbol Yahoo news URL (source line 305). -/
def newsUrlOf (symbol : String) : String :=
  "https://finance.yahoo.com/quote/" ++ symbol ++ "/news"

/-- Sentiment resolution (source lines 307–310): prefer the news-page
sentiment; if it is 0 and the candidate has (truthy) article text, fall back
to the sentiment of that text. -/
def resolveSentiment (env : RankEnv) (c : Candidate) : ℚ :=
  let s := env.sentiment (newsUrlOf c.symbol)
  if s == 0 && !(c.articleText == "") then env.sentiment c.articleText else s

/-- The composite score (source lines 313–318), accumulated in source
order: 40 for small caps, 20 for AI relevance, 15/3 per buy/hold rating,
25 per sentiment point, 4 per percent of market change (missing change
counts as 0). -/
def scoreOf (sc ai : Bool) (r : Ratings) (sent : ℚ) (q : Quote) : ℚ :=
  (if sc then 40 else 0) + (if ai then 20 else 0) +
    ((r.buy : ℚ) * 15 + (r.hold : ℚ) * 3) + sent * 25 +
    (q.regularMarketChangePercent.getD 0) * 4

/-- A ranked stock: the candidate spread together with quote, ratings,
sentiment, score and the two category flags (source lines 320–328). -/
structure RankedStock where
  symbol : String
  title : String
  summary : String
  articleText : String
  quote : Quote
  ratings : Ratings
  sentiment : ℚ
  score : ℚ
  isSmallCap : Bool
  isAiRelated : Bool

/-- The entry pushed for a candidate that passed all guards. -/
def rankEntry (env : RankEnv) (c : Candidate) (q : Quote) : RankedStock :=
  { symbol := c.symbol, title := c.title, summary := c.summary,
    articleText := c.articleText, quote := q,
    ratings := fetchAnalystRatings c.symbol,
    sentiment := resolveSentiment env c,
    score := scoreOf (isSmallCapOf q) (isAiRelatedOf c)
      (fetchAnalystRatings c.symbol) (resolveSentiment env c) q,
    isSmallCap := isSmallCapOf q, isAiRelated := isAiRelatedOf c }

/-- Outcome of the quote-resolution step for one candidate (source lines
289–293): the quote to use (if any), the updated cache, and the symbols for
which a fetch was issued against the provider. -/
structure StepResult where
  quote : Option Quote
  cache : List (String × Quote)
  log : List String

/-- One cache consultation: on a miss a fetch is issued (logged), and only a
*successful* result is stored in the cache. -/
def rankStep (env : RankEnv) (c : Candidate) (cache : List (String × Quote)) :
    StepResult :=
  match cache.lookup c.symbol with
  | some q => ⟨some q, cache, []⟩
  | none =>
    match env.fetchQuote c.symbol with
    | some q => ⟨some q, (c.symbol, q) :: cache, [c.symbol]⟩
    | none => ⟨none, cache, [c.symbol]⟩

/-- Accumulated result of the candidate loop of `rankStocks` (source lines
282–333): the ranked entries in processing order, the final cache, and the
full fetch log. -/
structure BuildResult where
  ranked : List RankedStock
  cache : List (String × Quote)
  log : List String

/-- The candidate loop of `rankStocks`: resolve the quote (cached), skip the
candidate when there is no quote or no truthy price, skip it when it is
neither small-cap nor AI-related, and otherwise push the ranked entry. -/
def rankBuild (env : RankEnv) : List Candidate → List (String × Quote) → BuildResult
  | [], cache => ⟨[], cache, []⟩
  | c :: cs, cache =>
    let step := rankStep env c cache
    let entry : List RankedStock :=
      match step.quote with
      | none => []
      | some q =>
        if quoteHasPrice q then
          if !(isSmallCapOf q) && !(isAiRelatedOf c) then []
          else [rankEntry env c q]
        else []
    let rest := rankBuild env cs step.cache
    ⟨entry ++ rest.ranked, rest.cache, step.log ++ rest.log⟩

/-- The symbols fetched from the quote provider during one `rankStocks`
run, in order. -/
def fetchLog (env : RankEnv) (cands : List Candidate) : List String :=
  (rankBuild env cands []).log

/-- `(b.quote.regularMarketChangePercent || 0)` as used by the comparator. -/
def chgOf (s : RankedStock) : ℚ := s.quote.regularMarketChangePercent.getD 0

/-- The lexicographic key realised by the comparator of source lines
336–340: score, then buy-rating count, then change percent. -/
def sortKey (s : RankedStock) : ℚ ×ₗ ℕ ×ₗ ℚ :=
  toLex (s.score, toLex (s.ratings.buy, chgOf s))

/-- The order established by `ranked.sort((a, b) => ...)`: `a` precedes `b`
exactly when the comparator is ≤ 0, i.e. when `b`'s key is ≤ `a`'s key in
the descending lexicographic sense. -/
def rankLE (a b : RankedStock) : Prop := sortKey b ≤ sortKey a

instance : DecidableRel rankLE := fun a b =>
  inferInstanceAs (Decidable (_ ≤ _))

instance : IsTotal RankedStock rankLE :=
  ⟨fun a b => by unfold rankLE; exact le_total (sortKey b) (sortKey a)⟩

instance : IsTrans RankedStock rankLE :=
  ⟨fun a b c h1 h2 => by unfold rankLE at *; exact le_trans h2 h1⟩

/-- The sort of source lines 336–340 (stable, as JS `Array.prototype.sort`
is). -/
def sortRanked (l : List RankedStock) : List RankedStock :=
  List.insertionSort rankLE l

/-- The ranked-and-sorted candidate pool of one `rankStocks` run. -/
def rankedSorted (env : RankEnv) (cands : List Candidate) : List RankedStock :=
  sortRanked (rankBuild env cands []).ranked

/-- Embedding of `rankStocks(candidates)` (source: `part_000`, lines
281–348): build and sort the ranked pool, then select up to
`DESIRED_SMALL_CAP_COUNT` small-cap-AI candidates, fill up to 5 from the
candidates that are *not* both small-cap and AI-related, and truncate to
5. -/
def rankStocks (env : RankEnv) (cands : List Candidate) : List RankedStock :=
  let ranked := rankedSorted env cands
  let topSmallCaps :=
    (ranked.filter fun s => s.isSmallCap && s.isAiRelated).take DESIRED_SMALL_CAP_COUNT
  let otherCandidates := ranked.filter fun s => !s.isSmallCap || !s.isAiRelated
  let topOthers := otherCandidates.take (5 - topSmallCaps.length)
  (topSmallCaps ++ topOthers).take 5

/-- Remove the first `k` elements satisfying `p` from a list, keeping
everything else in order. -/
def dropSatisfying (p : RankedStock → Bool) : ℕ → List RankedStock → List RankedStock
  | _, [] => []
  | 0, l => l
  | k + 1, x :: xs =>
    if p x then dropSatisfying p k xs else x :: dropSatisfying p (k + 1) xs

/-- Modelled from the spec's words (the selection rule of claim C1):
"take up to `DESIRED_SMALL_CAP_COUNT` of the highest-ranked candidates that
are both small-cap and AI-related, then fill the remaining slots (up to a
total of 5) from the remaining ranked pool regardless of category" — the
remaining pool being the sorted pool minus the picks already taken, with no
category restriction on the fill. -/
def rankStocksClaimed (env : RankEnv) (cands : List Candidate) : List RankedStock :=
  let ranked := rankedSorted env cands
  let tops :=
    (ranked.filter fun s => s.isSmallCap && s.isAiRelated).take DESIRED_SMALL_CAP_COUNT
  tops ++ (dropSatisfying (fun s => s.isSmallCap && s.isAiRelated)
    DESIRED_SMALL_CAP_COUNT ranked).take (5 - tops.length)

/-- Core cache lemma: when the provider answers for `sym`, a run starting
from any cache fetches `sym` at most once — and not at all if `sym` is
already cached. -/
theorem count_log_le (env : RankEnv) (sym : String)
    (hq : (env.fetchQuote sym).isSome = true) (cs : List Candidate) :
    ∀ cache : List (String × Quote),
      ((rankBuild env cs cache).log.count sym) ≤
        (if (cache.lookup sym).isSome then 0 else 1) := by
  induction cs with
  | nil => intro cache; simp [rankBuild]
  | cons c cs ih =>
    intro cache
    rw [rankBuild]
    simp only [List.count_append]
    cases hlk : cache.lookup c.symbol with
    | some q =>
      have hstep : rankStep env c cache = ⟨some q, cache, []⟩ := by
        rw [rankStep, hlk]
      rw [hstep]
      simpa using ih cache
    | none =>
      cases hfq : env.fetchQuote c.symbol with
      | some q =>
        have hstep : rankStep env c cache = ⟨some q, (c.symbol, q) :: cache, [c.symbol]⟩ := by
          rw [rankStep, hlk, hfq]
        rw [hstep]
        dsimp only
        by_cases hsym : c.symbol = sym
        · subst hsym
          rw [hlk]
          have hlk2 : ((c.symbol, q) :: cache).lookup c.symbol = some q := by
            simp [List.lookup]
          have hrest := ih ((c.symbol, q) :: cache)
          rw [hlk2] at hrest
          simp only [Option.isSome_some, if_true] at hrest
          have hcount : List.count c.symbol [c.symbol] = 1 := by simp
          simp only [Option.isSome_none, Bool.false_eq_true, if_false]
          omega
        · have hcount : List.count sym [c.symbol] = 0 := by
            rw [List.count_eq_zero, List.mem_singleton]
            exact fun h => hsym h.symm
          have hbeq : (sym == c.symbol) = false := by
            rw [beq_eq_false_iff_ne]
            exact fun h => hsym h.symm
          have hlk2 : ((c.symbol, q) :: cache).lookup sym = cache.lookup sym := by
            simp only [List.lookup, hbeq]
          have hrest := ih ((c.symbol, q) :: cache)
          rw [hlk2] at hrest
          omega
      | none =>
        have hstep : rankStep env c cache = ⟨none, cache, [c.symbol]⟩ := by
          rw [rankStep, hlk, hfq]
        rw [hstep]
        dsimp only
        have hsym : c.symbol ≠ sym := by
          intro h
          rw [h] at hfq
          rw [hfq] at hq
          simp at hq
        have hcount : List.count sym [c.symbol] = 0 := by
          rw [List.count_eq_zero, List.mem_singleton]
          exact fun h => hsym h.symm
        have hrest := ih cache
        omega

/-- C2 (amended): if the quote provider answers for a symbol, at most one
quote fetch is issued for it during a `rankStocks` run — the first result is
cached and reused; only symbols whose fetch fails can be fetched again for
later candidates. -/
theorem C2_quote_cache_amended (env : RankEnv) (cands : List Candidate)
    (sym : String) (hq : (env.fetchQuote sym).isSome = true) :
    (fetchLog env cands).count sym ≤ 1 := by
  have := count_log_le env sym hq cands []
  simpa [fetchLog, List.lookup] using this

/-- A candidate whose symbol the failing provider is asked about twice. -/
def cexCandZ : Candidate :=
  { symbol := "ZZ", title := "chatbot", summary := "", articleText := "" }

/-- A provider that fails every quote lookup. -/
def cexNoQuoteEnv : RankEnv := { fetchQuote := fun _ => none, sentiment := fun _ => 0 }

/-- C2 (counterexample): with a provider that fails the lookup, processing
two candidates with the same symbol issues two fetches for that symbol —
failed lookups are not cached, so "at most one quote fetch per unique
symbol" is violated. -/
theorem C2_quote_cache_counterexample :
    ¬ (fetchLog cexNoQuoteEnv [cexCandZ, cexCandZ]).count "ZZ" ≤ 1 := by
  decide

/-- A quote for the cache witness. -/
def cexQuoteW : Quote :=
  { symbol := "ZZ", shortName := "Z", regularMarketPrice := some 10,
    marketCap := some 100000000, regularMarketChange := some 0,
    regularMarketChangePercent := some 0 }

/-- A provider that answers every quote lookup with `cexQuoteW`. -/
def cexSomeQuoteEnv : RankEnv :=
  { fetchQuote := fun _ => some cexQuoteW, sentiment := fun _ => 0 }

/-- Witness for the amended C2: a successful provider and a duplicated
symbol, fetched at most once. -/
theorem C2_quote_cache_witness :
    (cexSomeQuoteEnv.fetchQuote "ZZ").isSome = true ∧
      (fetchLog cexSomeQuoteEnv [cexCandZ, cexCandZ]).count "ZZ" ≤ 1 :=
  ⟨rfl, C2_quote_cache_amended cexSomeQuoteEnv [cexCandZ, cexCandZ] "ZZ" rfl⟩

/-- C9: in the ranker's sort, for any two ranked candidates in output order
with equal composite score, the earlier one has at least the buy-rating
count of the later one, and when the buy counts are also equal its change
percent is at least the later one's — i.e. ties are broken by descending
buy count, then descending change percent. -/
theorem C9_sort_tiebreak (l : List RankedStock) :
    (sortRanked l).Pairwise fun a b =>
      (a.score = b.score → b.ratings.buy ≤ a.ratings.buy) ∧
      (a.score = b.score → a.ratings.buy = b.ratings.buy → chgOf b ≤ chgOf a) := by
  have hs : (sortRanked l).Pairwise rankLE := List.sorted_insertionSort rankLE l
  refine hs.imp ?_
  intro a b hab
  unfold rankLE sortKey at hab
  rw [Prod.Lex.le_iff] at hab
  constructor
  · intro hscore
    rcases hab with h | ⟨-, hinner⟩
    · exact absurd h (by rw [hscore]; exact lt_irrefl _)
    · rw [Prod.Lex.le_iff] at hinner
      rcases hinner with h | ⟨heq2, -⟩
      · exact le_of_lt h
      · exact le_of_eq heq2
  · intro hscore hbuy
    rcases hab with h | ⟨-, hinner⟩
    · exact absurd h (by rw [hscore]; exact lt_irrefl _)
    · rw [Prod.Lex.le_iff] at hinner
      rcases hinner with h | ⟨-, hch⟩
      · exact absurd h (by rw [hbuy]; exact lt_irrefl _)
      · exact hch

/-- C1 (amended): the list returned by `rankStocks` has length at most 5 and
equals the top `DESIRED_SMALL_CAP_COUNT` small-cap-AI candidates of the
sorted pool followed by top fill picks drawn only from the candidates that
are *not* both small-cap and AI-related (so the final `.slice(0, 5)` is
redundant); consequently the number of small-cap-AI picks is
`min DESIRED_SMALL_CAP_COUNT (number of small-cap-AI candidates)`. -/
theorem C1_selection_amended (env : RankEnv) (cands : List Candidate) :
    (rankStocks env cands).length ≤ 5 ∧
    rankStocks env cands =
      ((rankedSorted env cands).filter fun s => s.isSmallCap && s.isAiRelated).take
          DESIRED_SMALL_CAP_COUNT ++
        ((rankedSorted env cands).filter fun s => !s.isSmallCap || !s.isAiRelated).take
          (5 - (((rankedSorted env cands).filter fun s =>
            s.isSmallCap && s.isAiRelated).take DESIRED_SMALL_CAP_COUNT).length) ∧
    (rankStocks env cands).countP (fun s => s.isSmallCap && s.isAiRelated) =
      min DESIRED_SMALL_CAP_COUNT
        ((rankedSorted env cands).countP fun s => s.isSmallCap && s.isAiRelated) := by
  have hD : DESIRED_SMALL_CAP_COUNT = 3 := rfl
  set l := rankedSorted env cands with hldef
  set A := (l.filter fun s => s.isSmallCap && s.isAiRelated).take DESIRED_SMALL_CAP_COUNT
    with hAdef
  set B := (l.filter fun s => !s.isSmallCap || !s.isAiRelated).take (5 - A.length)
    with hBdef
  have hAlen : A.length ≤ 3 := by
    rw [hAdef, List.length_take, hD]
    exact min_le_left _ _
  have hBlen : B.length ≤ 5 - A.length := by
    rw [hBdef, List.length_take]
    exact min_le_left _ _
  have hABlen : (A ++ B).length ≤ 5 := by
    rw [List.length_append]
    omega
  have hcode : rankStocks env cands = (A ++ B).take 5 := by
    rw [rankStocks]
  have htake : (A ++ B).take 5 = A ++ B := List.take_of_length_le hABlen
  have hmemA : ∀ a ∈ A, (a.isSmallCap && a.isAiRelated) = true := by
    intro a ha
    rw [hAdef] at ha
    have ha2 : a ∈ l.filter (fun s => s.isSmallCap && s.isAiRelated) :=
      List.mem_of_mem_take ha
    exact (List.mem_filter.mp ha2).2
  have hmemB : ∀ b ∈ B, ¬ ((b.isSmallCap && b.isAiRelated) = true) := by
    intro b hb hcontra
    rw [hBdef] at hb
    have hb2 : b ∈ l.filter (fun s => !s.isSmallCap || !s.isAiRelated) :=
      List.mem_of_mem_take hb
    have h1 := (List.mem_filter.mp hb2).2
    rw [Bool.and_eq_true] at hcontra
    rw [hcontra.1, hcontra.2] at h1
    simp at h1
  have hcountA : A.countP (fun s => s.isSmallCap && s.isAiRelated) = A.length :=
    List.countP_eq_length.mpr hmemA
  have hcountB : B.countP (fun s => s.isSmallCap && s.isAiRelated) = 0 :=
    List.countP_eq_zero.mpr hmemB
  have hAlen' : A.length =
      min DESIRED_SMALL_CAP_COUNT (l.countP fun s => s.isSmallCap && s.isAiRelated) := by
    rw [hAdef, List.length_take, List.countP_eq_length_filter]
  refine ⟨?_, ?_, ?_⟩
  · rw [hcode, htake]
    exact hABlen
  · rw [hcode, htake]
  · rw [hcode, htake, List.countP_append, hcountA, hcountB, hAlen']
    omega

/-- The quote every counterexample candidate resolves to: positive price,
market cap inside the small-cap range, zero change. -/
def cexQuoteA : Quote :=
  { symbol := "ZAAA", shortName := "ZA", regularMarketPrice := some 10,
    marketCap := some 100000000, regularMarketChange := some 0,
    regularMarketChangePercent := some 0 }

/-- The counterexample candidate: an AI-related title ("chatbot" is a
keyword) and no article text. -/
def cexCandA : Candidate :=
  { symbol := "ZAAA", title := "chatbot", summary := "", articleText := "" }

/-- The counterexample run environment: every quote lookup succeeds with
`cexQuoteA`, every sentiment probe returns 0. -/
def cexRankEnv : RankEnv :=
  { fetchQuote := fun _ => some cexQuoteA, sentiment := fun _ => 0 }

/-- Four identical small-cap-AI candidates. -/
def cexCands : List Candidate := [cexCandA, cexCandA, cexCandA, cexCandA]

/-- The single ranked entry all four candidates produce. -/
def cexEntry : RankedStock := rankEntry cexRankEnv cexCandA cexQuoteA

theorem cex_isSmallCap : isSmallCapOf cexQuoteA = true := by
  simp only [isSmallCapOf, cexQuoteA]
  rw [Bool.and_eq_true]
  exact ⟨decide_eq_true (by norm_num [SMALL_CAP_MIN]),
    decide_eq_true (by norm_num [SMALL_CAP_MAX])⟩

theorem cex_isAiRelated : isAiRelatedOf cexCandA = true := by decide

theorem cex_hasPrice : quoteHasPrice cexQuoteA = true := by
  simp only [quoteHasPrice, cexQuoteA]
  simp

theorem cex_entry_flag : (cexEntry.isSmallCap && cexEntry.isAiRelated) = true := by
  simp only [cexEntry, rankEntry, cex_isSmallCap, cex_isAiRelated, Bool.and_self]

theorem cex_build :
    (rankBuild cexRankEnv cexCands []).ranked = List.replicate 4 cexEntry := by
  simp [cexCands, cexEntry, rankBuild, rankStep, cexRankEnv, List.lookup,
    List.replicate, cex_hasPrice, cex_isSmallCap, cex_isAiRelated]

theorem cex_sorted : rankedSorted cexRankEnv cexCands = List.replicate 4 cexEntry := by
  unfold rankedSorted sortRanked
  rw [cex_build]
  have h1 : List.insertionSort rankLE (List.replicate 4 cexEntry) =
      List.replicate (List.insertionSort rankLE (List.replicate 4 cexEntry)).length
        cexEntry :=
    List.eq_replicate_of_mem fun b hb =>
      List.eq_of_mem_replicate ((List.mem_insertionSort rankLE).mp hb)
  rw [h1, List.length_insertionSort, List.length_replicate]

theorem cex_drop_step (p : RankedStock → Bool) (k : ℕ) (x : RankedStock)
    (xs : List RankedStock) (hx : p x = true) :
    dropSatisfying p (k + 1) (x :: xs) = dropSatisfying p k xs := by
  rw [dropSatisfying, if_pos hx]

/-- C1 (counterexample): with four small-cap-AI candidates and nothing else,
the code returns only 3 picks (the fill stage draws exclusively from
candidates that are *not* both small-cap and AI-related), while the claimed
selection — fill the remaining slots from the remaining ranked pool
regardless of category — would return 4. -/
theorem C1_selection_counterexample :
    rankStocks cexRankEnv cexCands ≠ rankStocksClaimed cexRankEnv cexCands := by
  have hfP : (List.replicate 4 cexEntry).filter
      (fun s => s.isSmallCap && s.isAiRelated) = List.replicate 4 cexEntry := by
    rw [List.filter_eq_self]
    intro a ha
    rw [List.eq_of_mem_replicate ha]
    exact cex_entry_flag
  have hfQ : (List.replicate 4 cexEntry).filter
      (fun s => !s.isSmallCap || !s.isAiRelated) = [] := by
    rw [List.filter_eq_nil_iff]
    intro a ha
    rw [List.eq_of_mem_replicate ha]
    have h := cex_entry_flag
    rw [Bool.and_eq_true] at h
    simp [h.1, h.2]
  have hcode : rankStocks cexRankEnv cexCands = List.replicate 3 cexEntry := by
    simp only [rankStocks]
    rw [cex_sorted, hfP, hfQ]
    rfl
  have hdrop : dropSatisfying (fun s => s.isSmallCap && s.isAiRelated)
      DESIRED_SMALL_CAP_COUNT (List.replicate 4 cexEntry) = [cexEntry] := by
    rw [show List.replicate 4 cexEntry =
      cexEntry :: cexEntry :: cexEntry :: cexEntry :: [] from rfl]
    rw [show DESIRED_SMALL_CAP_COUNT = 2 + 1 from rfl]
    rw [cex_drop_step _ _ _ _ cex_entry_flag]
    rw [show (2 : ℕ) = 1 + 1 from rfl]
    rw [cex_drop_step _ _ _ _ cex_entry_flag]
    rw [show (1 : ℕ) = 0 + 1 from rfl]
    rw [cex_drop_step _ _ _ _ cex_entry_flag]
    rw [dropSatisfying]
    simp
  have hclaim : rankStocksClaimed cexRankEnv cexCands =
      List.replicate 3 cexEntry ++ [cexEntry] := by
    simp only [rankStocksClaimed]
    rw [cex_sorted, hfP, hdrop]
    rfl
  intro h
  rw [hcode, hclaim] at h
  have hlen := congrArg List.length h
  simp at hlen

/-! ### Newsletter renderer (source: `part_000`, lines 352–473)

The renderer `generateNewsletterHTML` cannot be embedded as a function,
because its source is not parseable JavaScript: the template literal opened
at line 353 resumes text mode once the top-picks interpolation
`${topPicks.length > 0 ? ... : ''}` closes on line 445, and the leftover
JSX-style lines 445–449 then sit inside that literal as text — until the
raw, unescaped backtick of line 449 (`html += ` followed by a backtick)
terminates the literal.  The characters after it,
`<h2>Latest AI & Tech News</h2>`, are then parsed as JavaScript code, where
`Latest AI` is two adjacent identifiers: a SyntaxError, raised when the
module is loaded, before anything runs.  What can be verified mechanically
is the lexical step of that argument, below: a faithful scanner for
template-literal text mode, applied to the verbatim source text. -/

/-- How scanning the text mode of a JavaScript template literal ends: at an
unescaped backtick (the literal terminates), at `$` + left brace (an
interpolation opens), or at the end of the scanned text. -/
inductive TmplEvent where
  | terminator
  | interpolation
  | endOfText
deriving DecidableEq

/-- The backtick character (written via its code point, U+0060). -/
def backquoteChar : Char := Char.ofNat 96

/-- The dollar-sign character (U+0024). -/
def dollarChar : Char := Char.ofNat 36

/-- The left-brace character (U+007B). -/
def openBraceChar : Char := Char.ofNat 123

/-- The backslash character (U+005C). -/
def backslashChar : Char := Char.ofNat 92

/-- Text-mode scanner for a JavaScript template literal (ECMA-262 template
lexical grammar): a backslash escapes the following character; an unescaped
backtick terminates the literal; `$` immediately followed by a left brace
opens an interpolation; every other character is literal text. -/
def tmplScan : List Char → TmplEvent
  | [] => TmplEvent.endOfText
  | c :: cs =>
    if c == backslashChar then
      match cs with
      | [] => TmplEvent.endOfText
      | _ :: cs2 => tmplScan cs2
    else if c == backquoteChar then TmplEvent.terminator
    else if c == dollarChar then
      match cs with
      | [] => TmplEvent.endOfText
      | d :: _ => if d == openBraceChar then TmplEvent.interpolation else tmplScan cs
    else tmplScan cs

/-- The verbatim text of `part_000` lines 445–449 from the character after
the `}` that closes the top-picks interpolation (line 445) up to and
including the first backtick of line 449: the span at which the outer
template literal of `generateNewsletterHTML` resumes text mode. -/
def templateTailText : String :=
  " \x7b/* End of topPicks section */\x7d\n\n    \x7b/* --- Other Relevant Articles --- */\x7d\n    \x7brelevantArticles.length > 0 && (\n      html += `"

set_option maxRecDepth 4096 in
/-- C3: the spec calls `generateNewsletterHTML` a deterministic pure
templating function of its two inputs, but the code cannot be any function
at all.  Mechanically: resuming the outer template literal's text mode after
the top-picks interpolation closes (line 445), the scanner reaches an
unescaped backtick — the stray backtick of line 449 — so the literal
terminates there; and the span contains no `$` + left-brace opener at all,
so no interpolation intervenes.  The source text that follows,
`<h2>Latest AI & Tech News</h2>`, is then JavaScript code, and `Latest AI`
(two adjacent identifiers) makes loading `part_000` a SyntaxError: the
renderer never runs. -/
theorem C3_render_template_broken :
    tmplScan templateTailText.data = TmplEvent.terminator ∧
    strIncludes templateTailText "$\x7b" = false := by
  decide
